import Mathlib

/-!
Verification development for the simple-chat repository (rust).

The embedding models the server core: the protocol codec
(src/common/src/lib.rs, extract_parts), the shared user registry
(HashMap<String, Sender<String>> behind a tokio Mutex), and the
per-connection event loop with its three command handlers
(src/server/src/server.rs: handle_join_command, handle_leave_command,
handle_user_messages, handle_connection).

Strings are modelled as lists of characters (Str := List Char). The wire
protocol is ASCII, where Rust byte indices, char counts and UTF-8 lengths
coincide, and Rust str::to_lowercase agrees with per-char ASCII lowering;
the embedding records Rust byte-based slicing as List.drop on chars under
that identification. Rust functions that can panic (unwrap) are embedded
as Option-returning functions, none standing for a panic, which in the
server aborts the spawned connection task.
-/

/-- Characters of a string, the model of Rust str contents. -/
abbrev Str := List Char

/-- Conversion from a Lean string literal to the Str model. -/
def str (s : String) : Str := s.data

/-- Whitespace test used by Rust str::trim (ASCII fragment). -/
def wsp (c : Char) : Bool := c = ' ' || c = '\t' || c = '\n' || c = '\r'

/-- Model of Rust str::trim: remove leading and trailing whitespace. -/
def trimStr (s : Str) : Str :=
  ((s.dropWhile wsp).reverse.dropWhile wsp).reverse

/-- Model of Rust str::to_lowercase on the ASCII fragment: per-char lowering. -/
def toLowerStr (s : Str) : Str := s.map Char.toLower

/-- Model of Rust line.split(" "): split at every single space, keeping empty
pieces, never returning an empty list (the split of "" is [""]). -/
def splitOnSpace : Str → List Str
  | [] => [[]]
  | c :: rest =>
    if c = ' ' then [] :: splitOnSpace rest
    else
      match splitOnSpace rest with
      | t :: ts => (c :: t) :: ts
      | [] => [[c]]

/-- Model of Rust str::strip_prefix with a one-char pattern: Some of the rest
when the string starts with the char, None otherwise. -/
def stripLeading (p : Char) : Str → Option Str
  | [] => none
  | c :: rest => if c = p then some rest else none

/-- Model of Rust str::strip_suffix with a one-char pattern. -/
def stripTrailing (p : Char) (s : Str) : Option Str :=
  match s.reverse with
  | [] => none
  | c :: rest => if c = p then some rest.reverse else none

/-- Model of Rust str::parse::<u16>: an optional leading plus sign, then one
or more decimal digits, value within u16 range; anything else is an error. -/
def parseU16 (s : Str) : Option Nat :=
  let t := match s with
    | '+' :: rest => rest
    | other => other
  if t = [] then none
  else if t.all Char.isDigit then
    let v := t.foldl (fun a c => a * 10 + (c.toNat - 48)) 0
    if v ≤ 65535 then some v else none
  else none

/-- Model of extract_parts (src/common/src/lib.rs lines 6-33). The source
splits the line on spaces, lowercases the trimmed first token as the command,
then for exactly two tokens puts the case-preserved remainder in the data
slot, and for three or more tokens lowercases the trimmed second token into
the username slot and trims the remainder into the data slot. Finally it
unwraps strip_prefix("<"), strip_suffix(">") and parse::<u16>() on the
command; none models the panic of a failed unwrap. -/
def extract_parts (line : Str) : Option (Nat × Str × Str) :=
  let lines := splitOnSpace line
  let command := toLowerStr (trimStr (lines.headD []))
  let ud : Str × Str :=
    if lines.length = 2 then
      ([], trimStr (line.drop command.length))
    else if 3 ≤ lines.length then
      let username := toLowerStr (trimStr (lines.getD 1 []))
      (username, trimStr (line.drop (command.length + username.length + 2)))
    else ([], [])
  match stripLeading '<' command with
  | none => none
  | some c1 =>
    match stripTrailing '>' c1 with
    | none => none
    | some c2 =>
      match parseU16 c2 with
      | none => none
      | some k => some (k, ud.1, ud.2)

/-- Message kind constants from src/common/src/messages.rs. -/
def JOIN_USER : Nat := 101

/-- USER_JOINED wire code (join acknowledgement). -/
def USER_JOINED : Nat := 102

/-- LEAVE_USER wire code. -/
def LEAVE_USER : Nat := 103

/-- DUPLICATE_USER wire code. -/
def DUPLICATE_USER : Nat := 105

/-- INVALID_CMD wire code. -/
def INVALID_CMD : Nat := 106

/-- USER_MSG wire code. -/
def USER_MSG : Nat := 107

/-- Capacity of every connection mailbox: channel::<String>(1000) in
handle_connection (src/server/src/server.rs line 180). -/
def connChannelCap : Nat := 1000

/-- Model of one tokio mpsc channel for Strings: its pending queue, whether
the receiving half was closed, and its bounded capacity. -/
structure Mailbox where
  queue : List Str
  closed : Bool
  cap : Nat
deriving DecidableEq

/-- Fresh mailbox of a new connection: empty, open, capacity 1000. -/
def freshMailbox : Mailbox := { queue := [], closed := false, cap := connChannelCap }

/-- The server world shared across connections: the registry map from
username to the channel id of the owning connection (the users
HashMap<String, Sender<String>>), and the pool of channels the Sender
handles point into. -/
structure World where
  registry : List (Str × Nat)
  chans : Nat → Mailbox

/-- Model of HashMap::contains_key on the registry. -/
def containsKey : List (Str × Nat) → Str → Bool
  | [], _ => false
  | e :: r, k => if e.1 = k then true else containsKey r k

/-- Model of HashMap::remove on the registry (a key occurs at most once in a
HashMap; removing a key that occurs removes its one entry). -/
def removeKey : List (Str × Nat) → Str → List (Str × Nat)
  | [], _ => []
  | e :: r, k => if e.1 = k then removeKey r k else e :: removeKey r k

/-- Model of HashMap::insert on the registry: a HashMap holds one entry per
key, so inserting replaces any existing entry for the key. -/
def insertKey (r : List (Str × Nat)) (k : Str) (v : Nat) : List (Str × Nat) :=
  removeKey r k ++ [(k, v)]

/-- Update one channel in the pool. -/
def setChan (f : Nat → Mailbox) (cid : Nat) (mb : Mailbox) : Nat → Mailbox :=
  fun i => if i = cid then mb else f i

/-- Mark a channel closed: rx.close() in handle_leave_command makes every
later Sender::send return an error. -/
def closeChan (w : World) (cid : Nat) : World :=
  { w with chans := setChan w.chans cid { w.chans cid with closed := true } }

/-- Model of sender.send(msg).await on a bounded tokio channel, as invoked by
the broadcast loop with its result discarded (let _ = ...): on a closed
channel send returns an error at once, which the caller discards, so the
world is unchanged and the loop proceeds; on an open channel with free
capacity the message is enqueued; on an open FULL channel send suspends until
the receiver drains, returned as none: the broadcaster is blocked. -/
def trySend (w : World) (cid : Nat) (msg : Str) : Option World :=
  let mb := w.chans cid
  if mb.closed then some w
  else if mb.queue.length < mb.cap then
    some { w with chans := setChan w.chans cid { mb with queue := mb.queue ++ [msg] } }
  else none

/-- Outcome of the broadcast loop of handle_user_messages: either the
iteration over the users map finished, or the broadcaster is suspended in
sender.send(...).await on the named recipient whose mailbox is full, with
the world as of that moment (later recipients not yet reached). -/
inductive BroadcastResult where
  | done (w : World)
  | blockedOn (w : World) (recipient : Str)

/-- World carried by a broadcast result. -/
def BroadcastResult.world : BroadcastResult → World
  | .done w => w
  | .blockedOn w _ => w

/-- Whether the broadcast completed. -/
def BroadcastResult.isDone : BroadcastResult → Bool
  | .done _ => true
  | .blockedOn _ _ => false

/-- Recipient the broadcast is suspended on, if any. -/
def BroadcastResult.blockedRecipient : BroadcastResult → Option Str
  | .done _ => none
  | .blockedOn _ r => some r

/-- The for-loop of handle_user_messages (src/server/src/server.rs lines
149-154): for every (username, sender) entry of the users map, if the key
differs from my_username, send the constructed line; a send on a full open
mailbox suspends the broadcaster there. -/
def broadcastLoop (msg myUsername : Str) : List (Str × Nat) → World → BroadcastResult
  | [], w => .done w
  | (name, cid) :: rest, w =>
    if name ≠ myUsername then
      match trySend w cid msg with
      | some w1 => broadcastLoop msg myUsername rest w1
      | none => .blockedOn w name
    else broadcastLoop msg myUsername rest w

/-- The UserMessage line the broadcast constructs:
format!("<{}> {} {}\n", messages::USER_MSG, sender_username, data). -/
def userMsgLine (senderUsername data : Str) : Str :=
  str "<107> " ++ senderUsername ++ [' '] ++ data ++ str "\n"

/-- Per-connection state owned by handle_connection: the id of the channel
created for this connection, my_username (empty = not joined), whether
rx.close() has run, the lines written to this socket, and whether the event
loop has exited (terminated) or the task died in a panic. -/
structure Conn where
  chan : Nat
  myUsername : Str
  rxClosed : Bool
  sock : List Str
  terminated : Bool
  panicked : Bool
deriving DecidableEq

/-- Model of handle_join_command (src/server/src/server.rs lines 56-94): if
the users map contains the requested name, write the DuplicateUser line and
return false without mutating state; otherwise insert the name mapped to
this connection channel, set my_username, write the JoinAck line and return
true. The source never consults the current my_username. -/
def handle_join_command (w : World) (c : Conn) (data : Str) : World × Conn × Bool :=
  if containsKey w.registry data then
    (w, { c with sock := c.sock ++ [str "<105>\n"] }, false)
  else
    ({ w with registry := insertKey w.registry data c.chan },
     { c with myUsername := data, sock := c.sock ++ [str "<102> " ++ data ++ str "\n"] },
     true)

/-- Model of handle_leave_command (src/server/src/server.rs lines 97-110):
remove the entry keyed by the data token of the line (not by my_username)
from the users map, then close this connection receiver, which also marks
the channel closed for every registered Sender clone. -/
def handle_leave_command (w : World) (c : Conn) (data : Str) : World × Conn :=
  let w1 := { w with registry := removeKey w.registry data }
  (closeChan w1 c.chan, { c with rxClosed := true })

/-- Model of handle_user_messages (src/server/src/server.rs lines 113-156):
an unjoined connection (empty my_username) gets a local notice on its own
socket and the function returns before reading the users map; a joined one
runs the broadcast loop with the constructed UserMessage line. -/
def handle_user_messages (w : World) (c : Conn) (data senderUsername : Str) :
    BroadcastResult × Conn :=
  if c.myUsername = [] then
    (.done w, { c with sock := c.sock ++ [str "Please join the chat first.\n"] })
  else
    (broadcastLoop (userMsgLine senderUsername data) c.myUsername w.registry w, c)

/-- Events a connection event loop can react to, the two arms of the
tokio::select! in handle_connection: a line arriving from the socket
(Ok(n) with n greater than 0), end of stream (Ok(0)), a read error, or a
poll of the mailbox receiver arm (rx.recv()). -/
inductive Ev where
  | line (l : Str)
  | eof
  | readErr
  | poll

/-- The blank-line skip condition of the event loop
(src/server/src/server.rs line 201): if line.trim() == a newline then
continue. Note str::trim removes the trailing newline, so the comparison
against a one-newline string is never satisfied. -/
def loopSkipsLine (l : Str) : Bool := trimStr l = str "\n"

/-- One iteration of the event loop of handle_connection
(src/server/src/server.rs lines 190-248). A line event: apply the (dead)
blank-line skip, decode with extract_parts (a decode panic kills the task:
no registry cleanup runs), then dispatch on the command code; an unknown
code writes the INVALID_CMD digits (no brackets, no newline) to the socket.
Eof and read errors break out of the loop with no registry cleanup. A poll
event delivers one pending mailbox message to the socket, or, when the
receiver is closed and drained, takes the recv None branch and breaks.
A broadcast suspended on a full mailbox leaves the loop parked inside
handle_user_messages, recorded by keeping the connection unterminated with
the world as of the suspension. -/
def stepConn (w : World) (c : Conn) : Ev → World × Conn
  | .eof => if c.terminated then (w, c) else (w, { c with terminated := true })
  | .readErr => if c.terminated then (w, c) else (w, { c with terminated := true })
  | .poll =>
    if c.terminated then (w, c)
    else
      match (w.chans c.chan).queue with
      | msg :: rest =>
        ({ w with chans := setChan w.chans c.chan { w.chans c.chan with queue := rest } },
         { c with sock := c.sock ++ [msg] })
      | [] =>
        if (w.chans c.chan).closed then (w, { c with terminated := true }) else (w, c)
  | .line l =>
    if c.terminated then (w, c)
    else if loopSkipsLine l then (w, c)
    else
      match extract_parts l with
      | none => (w, { c with panicked := true, terminated := true })
      | some (command, username, data) =>
        if command = JOIN_USER then
          let r := handle_join_command w c data
          (r.1, r.2.1)
        else if command = LEAVE_USER then
          handle_leave_command w c data
        else if command = USER_MSG then
          let r := handle_user_messages w c data username
          (r.1.world, r.2)
        else
          (w, { c with sock := c.sock ++ [str "106"] })

/-- The event loop as a fold of stepConn over a schedule of events. -/
def runConn (w : World) (c : Conn) : List Ev → World × Conn
  | [] => (w, c)
  | e :: es =>
    let r := stepConn w c e
    runConn r.1 r.2 es

/-- A connection freshly accepted by handle_connection, its channel id given:
no username yet, receiver open, nothing written, loop running. -/
def freshConn (cid : Nat) : Conn :=
  { chan := cid, myUsername := [], rxClosed := false, sock := [],
    terminated := false, panicked := false }

/-- An in-flight join attempt of handle_join_command, for the interleaving
model of the two critical sections of the source: the program counter is 0
before the first lock (users.lock().await.contains_key(data)), 1 between the
two locks (the check found the key absent; the first guard was dropped and
the task sits at the suspension point of the second users.lock().await
before insert), and 2 when the handler returned with the recorded result. -/
structure JoinTask where
  uname : Str
  chan : Nat
  pc : Nat
  result : Option Bool
deriving DecidableEq

/-- One atomic critical section of a join attempt, exactly as the source
sequences them: pc 0 runs the contains_key section (present: return false;
absent: fall through to the suspension point, registry untouched); pc 1 runs
the insert section and returns true. Each section holds the registry lock
for its own duration only. -/
def joinStep (reg : List (Str × Nat)) (t : JoinTask) : List (Str × Nat) × JoinTask :=
  match t.pc with
  | 0 =>
    if containsKey reg t.uname then (reg, { t with pc := 2, result := some false })
    else (reg, { t with pc := 1 })
  | 1 => (insertKey reg t.uname t.chan, { t with pc := 2, result := some true })
  | _ => (reg, t)

/-- Two concurrent join attempts against one registry, advanced by a
scheduler that picks which task runs its next critical section. -/
structure RaceState where
  reg : List (Str × Nat)
  taskA : JoinTask
  taskB : JoinTask
deriving DecidableEq

/-- Run the scheduled interleaving: false picks taskA, true picks taskB. -/
def runRace : List Bool → RaceState → RaceState
  | [], s => s
  | pick :: rest, s =>
    if pick then
      let r := joinStep s.reg s.taskB
      runRace rest { s with reg := r.1, taskB := r.2 }
    else
      let r := joinStep s.reg s.taskA
      runRace rest { s with reg := r.1, taskA := r.2 }

/-- World after a successful bounded send: the message appended to the
queue of one channel, everything else unchanged. -/
def appendChan (w : World) (cid : Nat) (msg : Str) : World :=
  { registry := w.registry,
    chans := setChan w.chans cid
      { queue := (w.chans cid).queue ++ [msg], closed := (w.chans cid).closed,
        cap := (w.chans cid).cap } }

/-! Concrete states used by the concrete theorems. -/

/-- Channel pool with every channel fresh (empty, open, capacity 1000). -/
def allFresh : Nat → Mailbox := fun _ => freshMailbox

/-- Server world at startup: empty users map, fresh channels. -/
def w0 : World := { registry := [], chans := allFresh }

/-- Two join attempts for the same username alice racing from an empty
registry, one from the connection owning channel 0 and one from the
connection owning channel 1. -/
def raceStart : RaceState :=
  { reg := [],
    taskA := { uname := str "alice", chan := 0, pc := 0, result := none },
    taskB := { uname := str "alice", chan := 1, pc := 0, result := none } }

/-- Schedule interleaving the two critical sections of the two joins:
A runs its contains_key section, then B runs its contains_key section,
then A inserts, then B inserts. -/
def raceSchedule : List Bool := [false, true, false, true]

/-- Input of the C2 trace: one connection joins as alice, then sends a
second JoinRequest with the name bob. -/
def c2Events : List Ev := [.line (str "<101> alice\n"), .line (str "<101> bob\n")]

/-- World of the C4 counterexample: alice (channel 0) and bob (channel 1)
are joined. -/
def c4World : World :=
  { registry := [(str "alice", 0), (str "bob", 1)], chans := allFresh }

/-- The connection of alice in the C4 counterexample. -/
def c4Conn : Conn := { freshConn 0 with myUsername := str "alice" }

/-- A mailbox at capacity: 1000 pending messages, still open. -/
def fullMailbox : Mailbox :=
  { queue := List.replicate connChannelCap (str "m"), closed := false,
    cap := connChannelCap }

/-- World of the C5 counterexample: alice, bob and carol joined; the bob
mailbox (channel 1) is full, the others fresh. -/
def c5World : World :=
  { registry := [(str "alice", 0), (str "bob", 1), (str "carol", 2)],
    chans := fun i => if i = 1 then fullMailbox else freshMailbox }

/-- World of the C8 witness: alice, bob and carol joined on distinct fresh
channels. -/
def c8World : World :=
  { registry := [(str "alice", 0), (str "bob", 1), (str "carol", 2)],
    chans := allFresh }

/-- The connection of alice in the C8 witness. -/
def c8Conn : Conn := { freshConn 0 with myUsername := str "alice" }

/-! Sanity checks mirroring the unit tests of src/common/src/lib.rs. -/

theorem extract_parts_three_or_more :
    extract_parts (str "<107> testuser Hey") =
      some (107, str "testuser", str "Hey") := by decide

theorem extract_parts_two :
    extract_parts (str "<101> testuser") = some (101, [], str "testuser") := by decide

theorem extract_parts_one :
    extract_parts (str "<103>") = some (103, [], []) := by decide

theorem extract_parts_blank_panics :
    extract_parts (str "\n") = none := by decide

/-! Helper lemmas about the string model. -/

theorem splitOnSpace_ne_nil (s : Str) : splitOnSpace s ≠ [] := by
  cases s with
  | nil => simp [splitOnSpace]
  | cons c rest =>
    simp only [splitOnSpace]
    split
    · simp
    · cases h : splitOnSpace rest <;> simp

theorem splitOnSpace_cons_token (t rest : Str) (ht : ∀ c ∈ t, c ≠ ' ') :
    splitOnSpace (t ++ ' ' :: rest) = t :: splitOnSpace rest := by
  induction t with
  | nil => simp [splitOnSpace]
  | cons c t' ih =>
    have hc : c ≠ ' ' := ht c (by simp)
    have ih' := ih (fun d hd => ht d (by simp [hd]))
    simp only [List.cons_append, splitOnSpace, if_neg hc, List.append_eq, ih']

theorem splitOnSpace_no_space (t : Str) (ht : ∀ c ∈ t, c ≠ ' ') :
    splitOnSpace t = [t] := by
  induction t with
  | nil => simp [splitOnSpace]
  | cons c t' ih =>
    have hc : c ≠ ' ' := ht c (by simp)
    have ih' := ih (fun d hd => ht d (by simp [hd]))
    simp only [splitOnSpace, if_neg hc, ih']

theorem dropWhile_head_false (s : Str) (h : s = [] ∨ wsp s.headI = false) :
    s.dropWhile wsp = s := by
  cases s with
  | nil => simp
  | cons c t =>
    rcases h with h | h
    · simp at h
    · simp only [List.headI] at h
      simp [List.dropWhile_cons, h]

theorem trimStr_eq_self (s : Str) (h : ∀ c ∈ s, wsp c = false) : trimStr s = s := by
  unfold trimStr
  have h1 : s.dropWhile wsp = s := by
    cases s with
    | nil => simp
    | cons c t => simp [List.dropWhile_cons, h c (by simp)]
  rw [h1]
  have h2 : s.reverse.dropWhile wsp = s.reverse := by
    cases hs : s.reverse with
    | nil => simp
    | cons c t =>
      have hc : c ∈ s := by
        have : c ∈ s.reverse := by rw [hs]; simp
        simpa using this
      simp [List.dropWhile_cons, h c hc]
  rw [h2, List.reverse_reverse]

theorem trimStr_cons_ws (c : Char) (s : Str) (h : wsp c = true) :
    trimStr (c :: s) = trimStr s := by
  unfold trimStr
  simp [List.dropWhile_cons, h]

theorem trimStr_append_newline (p : Str) (hp : p ≠ [])
    (hph : wsp p.headI = false) (hpr : wsp p.reverse.headI = false) :
    trimStr (p ++ ['\n']) = p := by
  unfold trimStr
  have h1 : (p ++ ['\n']).dropWhile wsp = p ++ ['\n'] := by
    cases p with
    | nil => exact absurd rfl hp
    | cons c t =>
      simp only [List.headI] at hph
      simp [List.dropWhile_cons, hph]
  rw [h1, List.reverse_append]
  have h2 : (['\n'].reverse ++ p.reverse).dropWhile wsp = p.reverse.dropWhile wsp := by
    simp [List.dropWhile_cons, wsp]
  rw [h2]
  have h3 : p.reverse.dropWhile wsp = p.reverse := by
    apply dropWhile_head_false
    right; exact hpr
  rw [h3, List.reverse_reverse]

theorem toLowerStr_eq_self (s : Str) (h : ∀ c ∈ s, c.toLower = c) :
    toLowerStr s = s := by
  unfold toLowerStr
  calc s.map Char.toLower = s.map id := List.map_congr_left h
    _ = s := List.map_id s

theorem toLowerStr_length (s : Str) : (toLowerStr s).length = s.length := by
  simp [toLowerStr]

theorem containsKey_iff_mem (r : List (Str × Nat)) (k : Str) :
    containsKey r k = true ↔ k ∈ r.map Prod.fst := by
  induction r with
  | nil => simp [containsKey]
  | cons e t ih =>
    simp only [containsKey, List.map_cons, List.mem_cons]
    split
    · simp_all
    · simp only [ih]
      constructor
      · exact Or.inr
      · rintro (h | h)
        · simp_all
        · exact h

/-- C1: the claim says the check-for-presence and the insert of a join are
one atomic critical section, so of two concurrent joins with the same
username exactly one succeeds and the other receives DuplicateUser. The
source takes the registry lock twice (users.lock().await.contains_key, then
users.lock().await.insert) with a suspension point between; under the
interleaving check-check-insert-insert both attempts observe the name
absent and both return true (both clients get JoinAck, neither gets
DuplicateUser), the second insert overwriting the first entry. -/
theorem C1_join_race_two_successes :
    (runRace raceSchedule raceStart).taskA.result = some true ∧
    (runRace raceSchedule raceStart).taskB.result = some true ∧
    (runRace raceSchedule raceStart).reg = [(str "alice", 1)] := by
  decide

/-- C2: the claim says a connection transitions to joined at most once and no
later JoinRequest changes its username or inserts a second Registry entry.
The source dispatches every JoinRequest to handle_join_command, which never
consults the current my_username: after joining as alice, a second join as
bob succeeds, my_username becomes bob and the registry holds both entries
(both pointing at channel 0, the alice entry left stale). -/
theorem C2_second_join_changes_username :
    (runConn w0 (freshConn 0) c2Events).2.myUsername = str "bob" ∧
    (runConn w0 (freshConn 0) c2Events).1.registry =
      [(str "alice", 0), (str "bob", 0)] := by
  decide

/-- C3 counterexample: the claim says the Registry entry of a connection is
not observable after its event loop has exited on the peer-closed path. A
connection joins as alice and then the peer closes the socket (read length
0): the loop has exited, yet alice is still in the registry. -/
theorem C3_entry_survives_eof :
    (runConn w0 (freshConn 0) [.line (str "<101> alice\n"), .eof]).2.terminated = true ∧
    containsKey (runConn w0 (freshConn 0)
      [.line (str "<101> alice\n"), .eof]).1.registry (str "alice") = true := by
  decide

/-- C3 amended: on the socket-closed (read length 0) and read-error exit
paths the event loop exits with the whole world unchanged: no Registry
cleanup runs, so an entry for this connection remains observable after the
loop has exited (the known gap); entries are removed only by the
LeaveRequest handler. -/
theorem C3_no_cleanup_on_abrupt_exit (w : World) (c : Conn) :
    (stepConn w c .eof).1 = w ∧ (stepConn w c .eof).2.terminated = true ∧
    (stepConn w c .readErr).1 = w ∧ (stepConn w c .readErr).2.terminated = true := by
  refine ⟨?_, ?_, ?_, ?_⟩ <;>
    · simp only [stepConn]
      split <;> simp_all

/-- C4 counterexample: the claim says a LeaveRequest removes exactly the
entry of the leaving connection own remembered name, whatever username
token the line carries, and leaves other users entries unchanged. The
source removes the entry keyed by the token of the line: when the alice
connection processes a LeaveRequest line carrying bob, the bob entry is
removed and the alice entry stays. -/
theorem C4_leave_removes_token_not_self :
    containsKey (stepConn c4World c4Conn
      (.line (str "<103> bob\n"))).1.registry (str "bob") = false ∧
    containsKey (stepConn c4World c4Conn
      (.line (str "<103> bob\n"))).1.registry (str "alice") = true := by
  decide

/-- C4 amended: handle_leave_command removes the entry keyed by the username
token carried on the LeaveRequest line (the connection own entry only when
the client sends its own name, as the bundled cli client does), closes the
connection mailbox receiver, and the event loop then exits at the next poll
of the closed, drained mailbox. -/
theorem C4_leave_semantics (w : World) (c : Conn) (data : Str)
    (h : c.terminated = false) :
    (handle_leave_command w c data).1.registry = removeKey w.registry data ∧
    (handle_leave_command w c data).2.rxClosed = true ∧
    ((handle_leave_command w c data).1.chans c.chan).closed = true ∧
    (((handle_leave_command w c data).1.chans c.chan).queue = [] →
      (stepConn (handle_leave_command w c data).1
        (handle_leave_command w c data).2 Ev.poll).2.terminated = true) := by
  refine ⟨rfl, rfl, by simp [handle_leave_command, closeChan, setChan], ?_⟩
  intro hq
  simp only [handle_leave_command, closeChan, setChan, stepConn] at hq ⊢
  simp only [h, Bool.false_eq_true, if_false]
  split
  · next heq => rw [hq] at heq; cases heq
  · simp [setChan]

/-- Witness for C4 amended at a concrete state: the fresh unjoined
connection 0 processing a leave with token bob. -/
theorem C4_leave_semantics_witness :
    (handle_leave_command w0 (freshConn 0) (str "bob")).1.registry =
      removeKey w0.registry (str "bob") ∧
    (handle_leave_command w0 (freshConn 0) (str "bob")).2.rxClosed = true ∧
    ((handle_leave_command w0 (freshConn 0) (str "bob")).1.chans
      (freshConn 0).chan).closed = true ∧
    (((handle_leave_command w0 (freshConn 0) (str "bob")).1.chans
        (freshConn 0).chan).queue = [] →
      (stepConn (handle_leave_command w0 (freshConn 0) (str "bob")).1
        (handle_leave_command w0 (freshConn 0) (str "bob")).2
        Ev.poll).2.terminated = true) :=
  C4_leave_semantics w0 (freshConn 0) (str "bob") rfl

/-- C6 counterexample: the claim says decode(encode(m)) == m for every
constructible payload-carrying Message. Encoding the UserMessage of sender
Alice with payload "hello there" and decoding the line yields username
alice: extract_parts lowercases the username token, so the round trip does
not return the same username. -/
theorem C6_roundtrip_fails_on_case :
    extract_parts (userMsgLine (str "Alice") (str "hello there")) =
      some (USER_MSG, str "alice", str "hello there") ∧
    str "alice" ≠ str "Alice" := by
  decide

/-- C7: the claim says decode is total, blank lines yield DecodeError::Empty,
unrecognized bracketed prefixes yield DecodeError::MalformedKind, and the
event loop skips blank lines. The source has no error type: the blank-line
test compares line.trim() against a newline string, which str::trim has
already stripped, so the test never fires; a blank line then reaches
extract_parts, whose strip_prefix("<").unwrap() panics, killing the
connection task, and a non-numeric bracketed kind panics in
parse::<u16>().unwrap(). -/
theorem C7_decode_panics_not_total :
    loopSkipsLine (str "\n") = false ∧
    extract_parts (str "\n") = none ∧
    extract_parts (str "<abc> hi\n") = none ∧
    extract_parts (str "hello there\n") = none ∧
    (stepConn w0 (freshConn 0) (.line (str "\n"))).2.panicked = true := by
  decide

set_option maxRecDepth 8000 in
/-- C5 counterexample: the claim says a send to a full mailbox during
broadcast is dropped silently, the broadcaster is not blocked, and delivery
proceeds to all remaining recipients. The source broadcasts with
sender.send(msg).await, which on a full open channel suspends until the
receiver drains: broadcasting from alice, the loop parks on bob and carol
(iterated after bob) receives nothing. -/
theorem C5_full_mailbox_blocks_broadcast :
    (broadcastLoop (str "x") (str "alice") c5World.registry c5World).isDone = false ∧
    (broadcastLoop (str "x") (str "alice") c5World.registry
      c5World).blockedRecipient = some (str "bob") ∧
    ((broadcastLoop (str "x") (str "alice") c5World.registry
      c5World).world.chans 2).queue = [] ∧
    ((broadcastLoop (str "x") (str "alice") c5World.registry
      c5World).world.chans 1).queue.length = connChannelCap := by
  decide

/-- C5 amended: during broadcast, a send to a CLOSED mailbox returns an
error that the loop discards: the recipient queue is unchanged, the failure
is never surfaced, and delivery proceeds to the remaining recipients. A
send to a FULL open mailbox, however, suspends the broadcaster on that
recipient (sender.send(...).await): the message is not dropped and the
remaining recipients are not reached until the recipient drains. -/
theorem C5_closed_drops_full_blocks (w : World) (name : Str) (cid : Nat)
    (rest : List (Str × Nat)) (msg my : Str) (hname : name ≠ my) :
    ((w.chans cid).closed = true →
      trySend w cid msg = some w ∧
      broadcastLoop msg my ((name, cid) :: rest) w = broadcastLoop msg my rest w) ∧
    ((w.chans cid).closed = false → (w.chans cid).cap ≤ (w.chans cid).queue.length →
      broadcastLoop msg my ((name, cid) :: rest) w = .blockedOn w name) := by
  constructor
  · intro hcl
    have ht : trySend w cid msg = some w := by simp [trySend, hcl]
    exact ⟨ht, by simp [broadcastLoop, hname, ht]⟩
  · intro hcl hfull
    have ht : trySend w cid msg = none := by
      simp [trySend, hcl]
      omega
    simp [broadcastLoop, hname, ht]

/-- Witness for C5 amended: bob (channel 1) as the recipient in the full
world of the counterexample, with an empty tail of recipients. -/
theorem C5_closed_drops_full_blocks_witness :
    ((c5World.chans 1).closed = true →
      trySend c5World 1 (str "x") = some c5World ∧
      broadcastLoop (str "x") (str "alice") [(str "bob", 1)] c5World =
        broadcastLoop (str "x") (str "alice") [] c5World) ∧
    ((c5World.chans 1).closed = false →
      (c5World.chans 1).cap ≤ (c5World.chans 1).queue.length →
      broadcastLoop (str "x") (str "alice") [(str "bob", 1)] c5World =
        .blockedOn c5World (str "bob")) :=
  C5_closed_drops_full_blocks c5World (str "bob") 1 [] (str "x") (str "alice")
    (by decide)

/-- C9: a UserMessage handled for a connection that has never joined (empty
my_username) writes only the local join-first notice to that connection own
socket and returns with the world untouched: the registry is not read or
mutated, no mailbox receives anything, and the connection is not
terminated. -/
theorem C9_unjoined_gating (w : World) (c : Conn) (data sender : Str)
    (h : c.myUsername = []) :
    handle_user_messages w c data sender =
      (.done w, { c with sock := c.sock ++ [str "Please join the chat first.\n"] }) ∧
    (handle_user_messages w c data sender).1.world = w ∧
    (handle_user_messages w c data sender).2.terminated = c.terminated := by
  refine ⟨by simp [handle_user_messages, h], ?_, ?_⟩ <;>
    simp [handle_user_messages, h, BroadcastResult.world]

/-- Witness for C9: the fresh connection 0 handling a UserMessage in the
two-user world of the C4 counterexample. -/
theorem C9_unjoined_gating_witness :
    handle_user_messages c4World (freshConn 0) (str "hi") (str "mallory") =
      (.done c4World, { freshConn 0 with
        sock := (freshConn 0).sock ++ [str "Please join the chat first.\n"] }) ∧
    (handle_user_messages c4World (freshConn 0) (str "hi")
      (str "mallory")).1.world = c4World ∧
    (handle_user_messages c4World (freshConn 0) (str "hi")
      (str "mallory")).2.terminated = (freshConn 0).terminated :=
  C9_unjoined_gating c4World (freshConn 0) (str "hi") (str "mallory") rfl

/-- C6 amended: the round trip decode(encode(m)) = m holds for a UserMessage
whose username is a nonempty whitespace-free token already in lower case and
whose payload is nonempty with no leading or trailing whitespace (interior
spaces allowed): encoding as the wire line and re-decoding with
extract_parts returns the same kind, the same username and the payload
verbatim. For a username containing an upper-case letter the round trip
returns the lowercased username instead (the counterexample). -/
theorem C6_roundtrip_lowercase (u p : Str)
    (huw : ∀ c ∈ u, wsp c = false) (hul : ∀ c ∈ u, c.toLower = c)
    (hp : p ≠ []) (hph : wsp p.headI = false) (hpr : wsp p.reverse.headI = false) :
    extract_parts (userMsgLine u p) = some (USER_MSG, u, p) := by
  have husp : ∀ c ∈ u, c ≠ ' ' := by
    intro c hc he
    have hw := huw c hc
    rw [he] at hw
    simp [wsp] at hw
  have h107 : str "<107> " = str "<107>" ++ [' '] := by decide
  have hline : userMsgLine u p = str "<107>" ++ ' ' :: (u ++ ' ' :: (p ++ str "\n")) := by
    unfold userMsgLine
    rw [h107]
    simp [List.append_assoc]
  have hsplit : splitOnSpace (userMsgLine u p) =
      str "<107>" :: u :: splitOnSpace (p ++ str "\n") := by
    rw [hline, splitOnSpace_cons_token _ _ (by decide),
        splitOnSpace_cons_token _ _ husp]
  obtain ⟨q, qs, hq⟩ : ∃ q qs, splitOnSpace (p ++ str "\n") = q :: qs := by
    cases h : splitOnSpace (p ++ str "\n") with
    | nil => exact absurd h (splitOnSpace_ne_nil _)
    | cons a l => exact ⟨a, l, rfl⟩
  have hut : trimStr u = u := trimStr_eq_self u huw
  have hulw : toLowerStr u = u := toLowerStr_eq_self u hul
  have hcmd : toLowerStr (trimStr (str "<107>")) = str "<107>" := by decide
  have hc5 : (str "<107>").length = 5 := by decide
  have hsplit2 : userMsgLine u p = (str "<107> " ++ u ++ [' ']) ++ (p ++ str "\n") := by
    unfold userMsgLine
    simp [List.append_assoc]
  have hlen : (str "<107> " ++ u ++ [' ']).length = 5 + u.length + 2 := by
    have h6 : (str "<107> ").length = 6 := by decide
    simp only [List.length_append, h6, List.length_singleton]
    omega
  have hdrop : (userMsgLine u p).drop (5 + u.length + 2) = p ++ str "\n" := by
    rw [hsplit2, List.drop_left' hlen]
  have hnl : str "\n" = ['\n'] := by decide
  have hdata : trimStr (p ++ str "\n") = p := by
    rw [hnl]
    exact trimStr_append_newline p hp hph hpr
  simp only [extract_parts, hsplit, hq]
  simp only [List.headD, List.length_cons, List.getD, List.get?, hcmd, hut, hulw, hc5]
  have hne2 : qs.length + 1 + 1 + 1 ≠ 2 := by omega
  have hge3 : 3 ≤ qs.length + 1 + 1 + 1 := by omega
  rw [if_neg hne2, if_pos hge3]
  simp only [Option.getD_some, hut, hulw, hc5]
  rw [hdrop, hdata]
  rfl

/-- Witness for C6 amended: the round trip at sender alice with payload
"hello there" (interior space). -/
theorem C6_roundtrip_lowercase_witness :
    extract_parts (userMsgLine (str "alice") (str "hello there")) =
      some (USER_MSG, str "alice", str "hello there") :=
  C6_roundtrip_lowercase (str "alice") (str "hello there")
    (by decide) (by decide) (by decide) (by decide) (by decide)

/-- C10: extract_parts lowercases the trimmed second space-separated token
into the username slot whenever the line splits into three or more tokens,
while a line of exactly two whitespace-clean tokens yields an empty username
and the case-preserved second token in the payload slot; hence the key
registered at join from a two-token JoinRequest line (Alice) differs in case
from the username decoded out of the same user later three-token messages
(alice). -/
theorem C10_username_lowercase_asymmetry :
    (∀ (line : Str) (r : Nat × Str × Str), 3 ≤ (splitOnSpace line).length →
      extract_parts line = some r →
      r.2.1 = toLowerStr (trimStr ((splitOnSpace line).getD 1 []))) ∧
    (∀ (t0 t1 : Str) (r : Nat × Str × Str),
      (∀ c ∈ t0, wsp c = false) → (∀ c ∈ t1, c ≠ ' ') →
      extract_parts (t0 ++ ' ' :: t1) = some r →
      r.2.1 = [] ∧ r.2.2 = trimStr t1) ∧
    (extract_parts (str "<101> Alice\n") = some (101, [], str "Alice") ∧
     extract_parts (str "<107> Alice hi\n") = some (107, str "alice", str "hi") ∧
     (handle_join_command w0 (freshConn 0) (str "Alice")).1.registry =
       [(str "Alice", 0)] ∧
     str "alice" ≠ str "Alice") := by
  refine ⟨?_, ?_, by decide⟩
  · intro line r h3 hsome
    have h2 : (splitOnSpace line).length ≠ 2 := by omega
    simp only [extract_parts, if_neg h2, if_pos h3] at hsome
    split at hsome
    · cases hsome
    · split at hsome
      · cases hsome
      · split at hsome
        · cases hsome
        · rw [Option.some.injEq] at hsome
          subst hsome
          rfl
  · intro t0 t1 r hw0 hsp1 hsome
    have hsp0 : ∀ c ∈ t0, c ≠ ' ' := by
      intro c hc he
      have hw := hw0 c hc
      rw [he] at hw
      simp [wsp] at hw
    have hsplit : splitOnSpace (t0 ++ ' ' :: t1) = [t0, t1] := by
      rw [splitOnSpace_cons_token _ _ hsp0, splitOnSpace_no_space _ hsp1]
    have ht0 : trimStr t0 = t0 := trimStr_eq_self t0 hw0
    have hdrop : (t0 ++ ' ' :: t1).drop t0.length = ' ' :: t1 :=
      List.drop_left t0 (' ' :: t1)
    have htrim : trimStr (' ' :: t1) = trimStr t1 := trimStr_cons_ws ' ' t1 (by decide)
    have h2 : ([t0, t1] : List Str).length = 2 := rfl
    simp only [extract_parts, hsplit, h2, if_pos, List.headD, ht0,
      toLowerStr_length, hdrop, htrim] at hsome
    split at hsome
    · cases hsome
    · split at hsome
      · cases hsome
      · split at hsome
        · cases hsome
        · rw [Option.some.injEq] at hsome
          subst hsome
          exact ⟨rfl, rfl⟩

/-- Witness for C10 at concrete lines: the three-token message line of Bob
decodes with username lowercased to bob, and the two-token join line of Bob
puts the case-preserved token in the payload slot. -/
theorem C10_username_lowercase_asymmetry_witness :
    ((107, str "bob", str "hi there") : Nat × Str × Str).2.1 =
      toLowerStr (trimStr ((splitOnSpace (str "<107> Bob hi there\n")).getD 1 [])) ∧
    ((101, [], str "Bob") : Nat × Str × Str).2.1 = [] ∧
    ((101, [], str "Bob") : Nat × Str × Str).2.2 = trimStr (str "Bob\n") :=
  ⟨C10_username_lowercase_asymmetry.1 (str "<107> Bob hi there\n")
      (107, str "bob", str "hi there") (by decide) (by decide),
   C10_username_lowercase_asymmetry.2.1 (str "<101>") (str "Bob\n")
      (101, [], str "Bob") (by decide) (by decide) (by decide)⟩

/-! Registry lemmas used by the fan-out theorem. -/

theorem removeKey_sublist (r : List (Str × Nat)) (k : Str) :
    (removeKey r k).Sublist r := by
  induction r with
  | nil => simp [removeKey]
  | cons e t ih =>
    simp only [removeKey]
    split
    · exact ih.cons e
    · exact ih.cons₂ e

theorem mem_removeKey_of (e : Str × Nat) (r : List (Str × Nat)) (k : Str)
    (he : e ∈ r) (hk : e.1 ≠ k) : e ∈ removeKey r k := by
  induction r with
  | nil => cases he
  | cons a t ih =>
    simp only [removeKey]
    rcases List.mem_cons.mp he with rfl | ht
    · rw [if_neg hk]
      exact List.mem_cons_self _ _
    · split
      · exact ih ht
      · exact List.mem_cons_of_mem _ (ih ht)

theorem mem_of_mem_removeKey {e : Str × Nat} {r : List (Str × Nat)} {k : Str}
    (he : e ∈ removeKey r k) : e ∈ r ∧ e.1 ≠ k := by
  induction r with
  | nil => cases he
  | cons a t ih =>
    simp only [removeKey] at he
    split at he
    · exact ⟨List.mem_cons_of_mem _ (ih he).1, (ih he).2⟩
    · next h =>
      rcases List.mem_cons.mp he with rfl | ht
      · exact ⟨List.mem_cons_self _ _, h⟩
      · exact ⟨List.mem_cons_of_mem _ (ih ht).1, (ih ht).2⟩

theorem removeKey_eq_self (r : List (Str × Nat)) (k : Str)
    (h : ∀ e ∈ r, e.1 ≠ k) : removeKey r k = r := by
  induction r with
  | nil => rfl
  | cons a t ih =>
    simp only [removeKey, if_neg (h a (List.mem_cons_self a t))]
    rw [ih (fun e he => h e (List.mem_cons_of_mem a he))]

theorem removeKey_length (r : List (Str × Nat)) (k : Str)
    (hnod : (r.map Prod.fst).Nodup) (hmem : k ∈ r.map Prod.fst) :
    (removeKey r k).length + 1 = r.length := by
  induction r with
  | nil => cases hmem
  | cons a t ih =>
    simp only [List.map_cons, List.nodup_cons] at hnod
    by_cases hk : a.1 = k
    · have hall : ∀ e ∈ t, e.1 ≠ k := by
        intro e he heq
        apply hnod.1
        rw [hk, ← heq]
        exact List.mem_map_of_mem Prod.fst he
      simp only [removeKey, if_pos hk, removeKey_eq_self t k hall, List.length_cons]
    · have hmem' : k ∈ t.map Prod.fst := by
        rcases List.mem_cons.mp hmem with h | h
        · exact absurd h.symm hk
        · exact h
      simp only [removeKey, if_neg hk, List.length_cons]
      rw [ih hnod.2 hmem']

theorem nodup_snd_unique {r : List (Str × Nat)} (hc : (r.map Prod.snd).Nodup)
    {e f : Str × Nat} (he : e ∈ r) (hf : f ∈ r) (h2 : e.2 = f.2) : e = f := by
  induction r with
  | nil => cases he
  | cons a t ih =>
    simp only [List.map_cons, List.nodup_cons] at hc
    rcases List.mem_cons.mp he with rfl | he'
    · rcases List.mem_cons.mp hf with rfl | hf'
      · rfl
      · exact absurd (h2 ▸ List.mem_map_of_mem Prod.snd hf') hc.1
    · rcases List.mem_cons.mp hf with rfl | hf'
      · exact absurd (h2 ▸ List.mem_map_of_mem Prod.snd he') hc.1
      · exact ih hc.2 he' hf'

/-- Specification of the broadcast loop when every recipient other than the
sender has an open mailbox with free capacity: the loop completes, the
registry is untouched, every such recipient channel gets exactly the message
appended, and every other channel is unchanged. -/
theorem broadcastLoop_spec (msg my : Str) :
    ∀ (r : List (Str × Nat)) (w : World),
    ((removeKey r my).map Prod.snd).Nodup →
    (∀ e ∈ r, e.1 ≠ my → (w.chans e.2).closed = false ∧
        (w.chans e.2).queue.length < (w.chans e.2).cap) →
    ∃ w', broadcastLoop msg my r w = .done w' ∧ w'.registry = w.registry ∧
      (∀ cid, cid ∉ (removeKey r my).map Prod.snd → w'.chans cid = w.chans cid) ∧
      (∀ e ∈ r, e.1 ≠ my →
        w'.chans e.2 = { w.chans e.2 with queue := (w.chans e.2).queue ++ [msg] }) := by
  intro r
  induction r with
  | nil =>
    intro w _ _
    exact ⟨w, rfl, rfl, fun _ _ => rfl, fun e he _ => absurd he (List.not_mem_nil e)⟩
  | cons a t ih =>
    obtain ⟨name, cid⟩ := a
    intro w hnod hroom
    by_cases hname : name = my
    · have hloop : broadcastLoop msg my ((name, cid) :: t) w = broadcastLoop msg my t w := by
        simp [broadcastLoop, hname]
      have hrk : removeKey ((name, cid) :: t) my = removeKey t my := by
        simp [removeKey, hname]
      obtain ⟨w', h1, h2, h3, h4⟩ :=
        ih w (by rwa [hrk] at hnod) (fun e he h => hroom e (List.mem_cons_of_mem _ he) h)
      refine ⟨w', by rw [hloop, h1], h2, ?_, ?_⟩
      · intro cid0 hcid0
        exact h3 cid0 (by rwa [hrk] at hcid0)
      · intro e he hne
        rcases List.mem_cons.mp he with rfl | he'
        · exact absurd hname hne
        · exact h4 e he' hne
    · have hr := hroom (name, cid) (List.mem_cons_self _ _) hname
      have hts : trySend w cid msg = some (appendChan w cid msg) := by
        simp only [trySend, hr.1, Bool.false_eq_true, if_false, if_pos hr.2, appendChan]
      set w1 : World := appendChan w cid msg with hw1
      have hloop : broadcastLoop msg my ((name, cid) :: t) w = broadcastLoop msg my t w1 := by
        simp [broadcastLoop, hname, hts]
      have hrk : removeKey ((name, cid) :: t) my = (name, cid) :: removeKey t my := by
        simp [removeKey, hname]
      rw [hrk] at hnod
      simp only [List.map_cons, List.nodup_cons] at hnod
      have hw1chans : ∀ x, x ≠ cid → w1.chans x = w.chans x := by
        intro x hx
        simp [hw1, appendChan, setChan, hx]
      have hw1cid : w1.chans cid =
          { w.chans cid with queue := (w.chans cid).queue ++ [msg] } := by
        simp [hw1, appendChan, setChan]
      have hnotcid : ∀ e ∈ t, e.1 ≠ my → e.2 ≠ cid := by
        intro e he hne heq
        apply hnod.1
        rw [← heq]
        exact List.mem_map_of_mem Prod.snd (mem_removeKey_of e t my he hne)
      have hroom1 : ∀ e ∈ t, e.1 ≠ my → (w1.chans e.2).closed = false ∧
          (w1.chans e.2).queue.length < (w1.chans e.2).cap := by
        intro e he hne
        rw [hw1chans e.2 (hnotcid e he hne)]
        exact hroom e (List.mem_cons_of_mem _ he) hne
      obtain ⟨w', h1, h2, h3, h4⟩ := ih w1 hnod.2 hroom1
      refine ⟨w', by rw [hloop, h1], by rw [h2]; rfl, ?_, ?_⟩
      · intro cid0 hcid0
        rw [hrk, List.map_cons, List.mem_cons] at hcid0
        push_neg at hcid0
        rw [h3 cid0 hcid0.2, hw1chans cid0 hcid0.1]
      · intro e he hne
        rcases List.mem_cons.mp he with rfl | he'
        · rw [h3 cid hnod.1, hw1cid]
        · rw [h4 e he' hne, hw1chans e.2 (hnotcid e he' hne)]

/-- C8: a UserMessage broadcast by a joined user with username my_username,
in a registry of N distinct users with distinct channels whose other members
all have open non-full mailboxes, sends the constructed UserMessage line to
the mailboxes of exactly the N-1 entries whose key differs from my_username:
the broadcaster own mailbox is untouched (no self-echo), every other entry
mailbox receives exactly the line appended once, and the recipients number
N-1. -/
theorem C8_fanout (w : World) (c : Conn) (data sender : Str)
    (hjoined : c.myUsername ≠ [])
    (hmem : containsKey w.registry c.myUsername = true)
    (hkeys : (w.registry.map Prod.fst).Nodup)
    (hcids : (w.registry.map Prod.snd).Nodup)
    (hroom : ∀ e ∈ w.registry, e.1 ≠ c.myUsername → (w.chans e.2).closed = false ∧
        (w.chans e.2).queue.length < (w.chans e.2).cap) :
    (handle_user_messages w c data sender).2 = c ∧
    (handle_user_messages w c data sender).1.isDone = true ∧
    (∀ e ∈ w.registry, e.1 = c.myUsername →
      (handle_user_messages w c data sender).1.world.chans e.2 = w.chans e.2) ∧
    (∀ e ∈ w.registry, e.1 ≠ c.myUsername →
      ((handle_user_messages w c data sender).1.world.chans e.2).queue =
        (w.chans e.2).queue ++ [userMsgLine sender data]) ∧
    (removeKey w.registry c.myUsername).length + 1 = w.registry.length := by
  have hnod : ((removeKey w.registry c.myUsername).map Prod.snd).Nodup :=
    hcids.sublist ((removeKey_sublist w.registry c.myUsername).map Prod.snd)
  obtain ⟨w', h1, h2, h3, h4⟩ := broadcastLoop_spec (userMsgLine sender data)
    c.myUsername w.registry w hnod hroom
  have hh : handle_user_messages w c data sender = (.done w', c) := by
    simp [handle_user_messages, hjoined, h1]
  rw [hh]
  refine ⟨rfl, rfl, ?_, ?_,
    removeKey_length _ _ hkeys ((containsKey_iff_mem _ _).mp hmem)⟩
  · intro e he hkey
    apply h3
    intro hmemsnd
    obtain ⟨f, hf, hfe⟩ := List.mem_map.mp hmemsnd
    have hfr := mem_of_mem_removeKey hf
    have hef : f = e := nodup_snd_unique hcids hfr.1 he hfe
    rw [hef] at hfr
    exact hfr.2 hkey
  · intro e he hne
    have := h4 e he hne
    simp only [BroadcastResult.world]
    rw [this]

/-- Witness for C8: alice broadcasting to bob and carol in the three-user
world. -/
theorem C8_fanout_witness :
    (handle_user_messages c8World c8Conn (str "hi all") (str "alice")).2 = c8Conn ∧
    (handle_user_messages c8World c8Conn (str "hi all")
      (str "alice")).1.isDone = true ∧
    (∀ e ∈ c8World.registry, e.1 = c8Conn.myUsername →
      (handle_user_messages c8World c8Conn (str "hi all")
        (str "alice")).1.world.chans e.2 = c8World.chans e.2) ∧
    (∀ e ∈ c8World.registry, e.1 ≠ c8Conn.myUsername →
      ((handle_user_messages c8World c8Conn (str "hi all")
        (str "alice")).1.world.chans e.2).queue =
        (c8World.chans e.2).queue ++ [userMsgLine (str "alice") (str "hi all")]) ∧
    (removeKey c8World.registry c8Conn.myUsername).length + 1 =
      c8World.registry.length :=
  C8_fanout c8World c8Conn (str "hi all") (str "alice")
    (by decide) (by decide) (by decide) (by decide) (by decide)
